import Mathlib

/-!
Verification development for the SafeDataTool disclosure-risk pipeline core
(`app/pipeline/risk/analyzer.py`, `app/pipeline/privacy/transformers.py`,
`app/pipeline/utility/evaluator.py`).

A tabular dataset is modelled as a list of named, dtyped columns of cell
values.  Cell values are integers, rationals (idealising IEEE floats),
strings, or the missing marker (NaN).  Python / pandas value equality
(under which `25 == 25.0`) is modelled by `Value.pyEq`; note that pandas
`merge` matches NaN keys with each other, which is why
`Value.pyEq .missing .missing = true`, while `groupby` separately drops
rows whose key contains NaN before any equality test is made.
-/

/-- Cell value of a tabular dataset: integer, float (idealised as ℚ),
string, or the missing marker (NaN). -/
inductive Value where
  | int : ℤ → Value
  | num : ℚ → Value
  | str : String → Value
  | missing : Value
deriving DecidableEq

/-- Python equality on cell values: numbers compare by value across
int/float, strings by content; NaN keys match each other in pandas merge
(the only place this development compares missing with missing). -/
def Value.pyEq : Value → Value → Bool
  | .int a, .int b => decide (a = b)
  | .int a, .num b => decide ((a : ℚ) = b)
  | .num a, .int b => decide (a = (b : ℚ))
  | .num a, .num b => decide (a = b)
  | .str a, .str b => decide (a = b)
  | .missing, .missing => true
  | _, _ => false

/-- The missing marker test (`pd.isna`). -/
def Value.isMissing : Value → Bool
  | .missing => true
  | _ => false

/-- Is the cell a string? -/
def Value.isStr : Value → Bool
  | .str _ => true
  | _ => false

/-- Numeric reading of a cell, if any. -/
def Value.toQ : Value → Option ℚ
  | .int n => some (n : ℚ)
  | .num q => some q
  | _ => none

/-- Column dtype: numeric (int64/float64) or object (textual / mixed). -/
inductive Dtype where
  | numeric : Dtype
  | object : Dtype
deriving DecidableEq

/-- A named pandas column: name, dtype, and the cell values in row order. -/
structure Col where
  name : String
  dtype : Dtype
  values : List Value
deriving DecidableEq

/-- A pandas DataFrame: columns plus the row count (`len(df)`). -/
structure DF where
  cols : List Col
  nrows : ℕ
deriving DecidableEq

/-- Well-formedness of a DataFrame: every column has `nrows` cells, column
names are distinct, and a numeric-dtype column holds no string cell. -/
def DF.wellFormed (df : DF) : Prop :=
  (∀ c ∈ df.cols, c.values.length = df.nrows) ∧
  (df.cols.map Col.name).Nodup ∧
  (∀ c ∈ df.cols, c.dtype = .numeric → ∀ v ∈ c.values, v.isStr = false)

instance (df : DF) : Decidable df.wellFormed := by
  unfold DF.wellFormed; infer_instance

/-- Column lookup by name (`df[name]`), as pandas does. -/
def DF.col? (df : DF) (name : String) : Option Col :=
  df.cols.find? (fun c => c.name = name)

/-- Cell of column `name` at row `i` (missing when out of range; the
theorems assume well-formedness, under which this never pads). -/
def DF.cell (df : DF) (name : String) (i : ℕ) : Value :=
  ((df.col? name).map (fun c => c.values.getD i .missing)).getD .missing

/-- Fuel-driven worker for `dedupBy` (structural recursion so that the
kernel can evaluate it; the fuel never runs out when primed with the list
length). -/
def dedupByF {α : Type} (R : α → α → Bool) : ℕ → List α → List α
  | _, [] => []
  | 0, _ :: _ => []
  | f + 1, a :: l => a :: dedupByF R f (l.filter (fun b => ¬ R b a))

/-- Keep the first element of every equivalence class, in first-occurrence
order — the key-listing step behind `groupby` / `value_counts` / `nunique`. -/
def dedupBy {α : Type} (R : α → α → Bool) (l : List α) : List α :=
  dedupByF R l.length l

/-- Row-key (tuple of values) equality, componentwise Python equality. -/
def tupEq : List Value → List Value → Bool
  | [], [] => true
  | a :: l, b :: m => a.pyEq b && tupEq l m
  | _, _ => false

/-- Metric value.  Rates, deltas and counts are rationals (idealising the
floats of the source); `absSqrtDiff v1 v2` denotes the real number
`|sqrt v1 - sqrt v2|` and is used to carry the standard-deviation delta by
the two population variances that determine it, keeping the development
executable. -/
inductive MVal where
  | q : ℚ → MVal
  | absSqrtDiff : ℚ → ℚ → MVal
deriving DecidableEq

/-- A metric result as produced by `RiskAnalyzer` / `UtilityEvaluator`:
name, numeric value, human-readable label, detail mapping. -/
structure Metric where
  name : String
  value : MVal
  label : String
  details : List (String × MVal)
deriving DecidableEq

/-- The tuple of quasi-identifier values of row `i`. -/
def rowTuple (df : DF) (qis : List String) (i : ℕ) : List Value :=
  qis.map (fun q => df.cell q i)

/-- The row keys entering `df.groupby(qis)`: pandas drops every row whose
key contains NaN (`dropna=True`, the default in the source). -/
def validKeys (df : DF) (qis : List String) : List (List Value) :=
  (List.range df.nrows).filterMap (fun i =>
    let t := rowTuple df qis i
    if t.any Value.isMissing then none else some t)

/-- `df.groupby(qis).size()`: one size per equivalence class of surviving
row keys. -/
def groupSizes (df : DF) (qis : List String) : List ℕ :=
  (dedupBy tupEq (validKeys df qis)).map
    (fun t => (validKeys df qis).countP (fun u => tupEq u t))

/-- Minimum of a list of naturals, 0 on the empty list (the source guards
the empty case separately). -/
def listMin : List ℕ → ℕ
  | [] => 0
  | a :: t => t.foldl Nat.min a

/-- `RiskAnalyzer._uniques_rate`. -/
def uniquesRateMetric (qis : List String) (df : DF) : Metric :=
  let unique_count := (groupSizes df qis).countP (fun s => s == 1)
  let total := df.nrows
  let rate : ℚ := if total = 0 then 0 else (unique_count : ℚ) / (total : ℚ)
  { name := "uniques_rate"
    value := .q rate
    label := "Proportion of unique records on quasi-identifiers"
    details := [("unique_records", .q (unique_count : ℚ)),
                ("total_records", .q (total : ℚ))] }

/-- `RiskAnalyzer._k_map`. -/
def kMapMetric (qis : List String) (df : DF) : Metric :=
  let sizes := groupSizes df qis
  let mean_k : ℚ := if sizes.length = 0 then 0 else (sizes.sum : ℚ) / (sizes.length : ℚ)
  let min_k := listMin sizes
  { name := "k_map"
    value := .q mean_k
    label := "Average equivalence class size (k-map)"
    details := [("min_k", .q (min_k : ℚ))] }

/-- `RiskAnalyzer._linkage_success_rate`: the left merge emits one output
row per (left row, matching reference row) pair, so `matched` counts
reference matches with multiplicity.  pandas merge keys match NaN with
NaN, which `tupEq` reproduces. -/
def linkageMetric (qis : List String) (anon ref : DF) : Metric :=
  let matched := ((List.range anon.nrows).map (fun i =>
    (List.range ref.nrows).countP
      (fun j => tupEq (rowTuple ref qis j) (rowTuple anon qis i)))).sum
  let total := anon.nrows
  let rate : ℚ := if total = 0 then 0 else (matched : ℚ) / (total : ℚ)
  { name := "linkage_success_rate"
    value := .q rate
    label := "Linkage attack success rate"
    details := [("matched_records", .q (matched : ℚ)),
                ("total_records", .q (total : ℚ))] }

/-- `RiskAnalyzer.evaluate`.  An empty quasi-identifier set raises
`ValueError`; a quasi-identifier column absent from a frame raises
`KeyError` inside `groupby` / `merge`. -/
def riskEvaluate (qis : List String) (df : DF) (refOpt : Option DF) :
    Except String (List Metric) :=
  if qis.isEmpty then
    .error "At least one quasi identifier is required for risk analysis."
  else if ¬ qis.all (fun q => (df.col? q).isSome) then
    .error "KeyError: quasi identifier column missing from dataset"
  else
    match refOpt with
    | none => .ok [uniquesRateMetric qis df, kMapMetric qis df]
    | some ref =>
      if ¬ qis.all (fun q => (ref.col? q).isSome) then
        .error "KeyError: quasi identifier column missing from reference dataset"
      else
        .ok [uniquesRateMetric qis df, kMapMetric qis df, linkageMetric qis df ref]

/-- Claim-side partition of claim C1: every row enters the partition, a
missing value is compared literally (it equals itself and nothing else),
and the metric is singleton classes over total rows. -/
def specUniquesRate (qis : List String) (df : DF) : ℚ :=
  let keys := (List.range df.nrows).map (rowTuple df qis)
  let sizes := (dedupBy tupEq keys).map (fun t => keys.countP (fun u => tupEq u t))
  let unique_count := sizes.countP (fun s => s == 1)
  if df.nrows = 0 then 0 else (unique_count : ℚ) / (df.nrows : ℚ)

/-- Claim-side equivalence-class size of claim C3: the number of rows whose
quasi-identifier tuple equals that of row `i`. -/
def tupleClassSize (df : DF) (qis : List String) (i : ℕ) : ℕ :=
  (List.range df.nrows).countP
    (fun j => tupEq (rowTuple df qis j) (rowTuple df qis i))

/-- Number of rows with no missing quasi-identifier value whose key occurs
exactly once among such rows (the amended numerator of claim C1). -/
def singletonRowCount (qis : List String) (df : DF) : ℕ :=
  (validKeys df qis).countP
    (fun u => (validKeys df qis).countP (fun x => tupEq x u) == 1)

/-- Decimal digits of the fraction `r / d` (0 < r < d), up to `fuel`
digits, stopping when the expansion terminates — the fractional part of
Python's repr of an exactly-decimal float. -/
def fracDigits : ℕ → ℕ → ℕ → String
  | 0, _, _ => ""
  | _, 0, _ => ""
  | fuel + 1, r, d => toString (r * 10 / d) ++ fracDigits fuel (r * 10 % d) d

/-- Python `str` of a float with an exactly-decimal value: always shows at
least one fractional digit (`str(25.0) == "25.0"`). -/
def numRepr (x : ℚ) : String :=
  let sign := if x < 0 then "-" else ""
  let n := x.num.natAbs
  let d := x.den
  sign ++ toString (n / d) ++ "." ++ (if n % d = 0 then "0" else fracDigits 17 (n % d) d)

/-- Python `str` of a cell, as produced by `Series.astype(str)`:
`str(nan) == "nan"`. -/
def Value.pyStr : Value → String
  | .int n => toString n
  | .num x => numRepr x
  | .str s => s
  | .missing => "nan"

/-- The free-form parameter mapping of a pipeline configuration.  A `none`
field is an absent dictionary key; the per-technique defaults of the
source (`parameters.get(key, default)`) are applied at use sites. -/
structure Params where
  k : Option ℤ := none
  suppression_value : Option Value := none
  generalise_numeric : Option Bool := none
  bin_count : Option ℤ := none
  epsilon : Option ℚ := none
  sensitivity : Option ℚ := none
deriving DecidableEq

/-- `Series.nunique(dropna=True)`. -/
def nuniqueDropna (s : List Value) : ℕ :=
  (dedupBy Value.pyEq (s.filter (fun v => ¬ v.isMissing))).length

/-- Minimum of a list of rationals (0 on the empty list; call sites are
guarded). -/
def listMinQ : List ℚ → ℚ
  | [] => 0
  | a :: t => t.foldl min a

/-- Maximum of a list of rationals (0 on the empty list; call sites are
guarded). -/
def listMaxQ : List ℚ → ℚ
  | [] => 0
  | a :: t => t.foldl max a

/-- Interval breaks are displayed by pandas rounded to precision 3; the
break values arising here are exact decimals, unaffected by the rounding
mode. -/
def roundTo3 (x : ℚ) : ℚ :=
  (⌊x * 1000 + 1 / 2⌋ : ℚ) / 1000

/-- The string pandas prints for a right-closed cut interval. -/
def intervalLabel (lo hi : ℚ) : String :=
  "(" ++ numRepr (roundTo3 lo) ++ ", " ++ numRepr (roundTo3 hi) ++ "]"

/-- `pd.cut(series, bins=binCount)`: equal-width bins over the observed
range, the leftmost edge lowered by 0.1% of the range so the minimum is
included; a missing cell cuts to a missing (NaN) category.  Non-numeric
cells cannot occur in the numeric-dtype columns this is applied to. -/
def pdCut (binCount : ℕ) (s : List Value) : List Value :=
  let xs := s.filterMap Value.toQ
  let mn := listMinQ xs
  let mx := listMaxQ xs
  let adj := (mx - mn) / 1000
  let edge : ℕ → ℚ := fun j => mn + (mx - mn) * j / binCount
  let lowEdge : ℕ → ℚ := fun j => if j = 0 then mn - adj else edge j
  let binOf : ℚ → ℕ := fun x =>
    ((List.range binCount).find? (fun j => x ≤ edge (j + 1))).getD (binCount - 1)
  s.map (fun v =>
    match v.toQ with
    | some x => Value.str (intervalLabel (lowEdge (binOf x)) (edge (binOf x + 1)))
    | none => Value.missing)

/-- `Series.astype(str)` — note this turns NaN into the string "nan". -/
def seriesAstypeStr (s : List Value) : List Value :=
  s.map (fun v => .str v.pyStr)

/-- `Series.fillna(repl)`. -/
def seriesFillna (repl : Value) (s : List Value) : List Value :=
  s.map (fun v => if v = .missing then repl else v)

/-- `PrivacyTransformer._generalise_numeric`: leave an already-coarse
column unchanged, otherwise bin it; the source applies `.fillna("MISSING")`
after `.astype(str)`, at which point no NaN is left to fill. -/
def generaliseNumeric (binCount : ℤ) (s : List Value) : List Value :=
  if (nuniqueDropna s : ℤ) ≤ binCount then s
  else seriesFillna (.str "MISSING") (seriesAstypeStr (pdCut binCount.toNat s))

/-- The composite row key of `_apply_k_anonymity`: string forms of the
quasi-identifier values joined with the literal separator `||`. -/
def rowKey (df : DF) (qis : List String) (i : ℕ) : String :=
  String.intercalate "||" ((rowTuple df qis i).map Value.pyStr)

/-- How many rows of `df` share the composite key of row `i`
(`key_series.map(key_series.value_counts())` at row `i`). -/
def rowKeyCount (df : DF) (qis : List String) (i : ℕ) : ℕ :=
  (List.range df.nrows).countP (fun j => rowKey df qis j == rowKey df qis i)

/-- Technique-specific info mapping values. -/
inductive InfoVal where
  | q : ℚ → InfoVal
  | s : String → InfoVal
  | strs : List String → InfoVal
deriving DecidableEq

/-- The suppression mask of `_apply_k_anonymity`: a row is marked when its
composite-key frequency is strictly below k (default 5). -/
def kaSuppressed (qis : List String) (p : Params) (df : DF) (i : ℕ) : Bool :=
  decide ((rowKeyCount df qis i : ℤ) < p.k.getD 5)

/-- The per-column body of the `_apply_k_anonymity` loop: a numeric
quasi-identifier column is generalised when `generalise_numeric` holds
(its dtype turning object when binning actually happens); any other
quasi-identifier column keeps its values except that masked rows are
overwritten with the suppression value (upcasting the dtype when a string
lands in a numeric column); non-quasi-identifier columns pass through. -/
def kaCol (qis : List String) (p : Params) (df : DF) (c : Col) : Col :=
  if c.name ∈ qis then
    if p.generalise_numeric.getD true && c.dtype == .numeric then
      { c with
          values := generaliseNumeric (p.bin_count.getD 5) c.values,
          dtype := if (nuniqueDropna c.values : ℤ) ≤ p.bin_count.getD 5 then c.dtype
                   else .object }
    else
      { c with
          values := (List.range df.nrows).map (fun i =>
            if kaSuppressed qis p df i then
              p.suppression_value.getD (.str "SUPPRESSED")
            else c.values.getD i .missing),
          dtype := if ((List.range df.nrows).any (kaSuppressed qis p df)) &&
                      (p.suppression_value.getD (.str "SUPPRESSED")).isStr then
                     .object
                   else c.dtype }
  else c

/-- `PrivacyTransformer._apply_k_anonymity`. -/
def applyKAnonymity (qis : List String) (p : Params) (df : DF) :
    Except String (DF × List (String × InfoVal)) :=
  if qis.isEmpty then .error "k-anonymity requires quasi-identifiers."
  else if ¬ qis.all (fun q => (df.col? q).isSome) then
    .error "KeyError: quasi identifier column missing from dataset"
  else
    .ok ({ cols := df.cols.map (kaCol qis p df), nrows := df.nrows },
      [("k", .q ((p.k.getD 5 : ℤ) : ℚ)),
       ("suppressed_rows",
        .q (((List.range df.nrows).countP (kaSuppressed qis p df) : ℕ) : ℚ)),
       ("total_rows", .q (df.nrows : ℚ))])

/-- Float addition of a noise sample to a cell: NaN stays NaN.  A string
cell cannot occur in a numeric-dtype column. -/
def Value.addNoise : Value → ℚ → Value
  | .int n, x => .num ((n : ℚ) + x)
  | .num a, x => .num (a + x)
  | .missing, _ => .missing
  | .str s, _ => .str s

/-- `PrivacyTransformer._apply_differential_privacy`.  `noise c i` stands
for the Laplace sample drawn for column `c`, row `i` (location 0, scale
`sensitivity / epsilon`); the draw is the only randomness of the module
and is passed in explicitly. -/
def applyDP (p : Params) (noise : String → ℕ → ℚ) (df : DF) :
    Except String (DF × List (String × InfoVal)) :=
  let epsilon := p.epsilon.getD 1
  let sensitivity := p.sensitivity.getD 1
  if epsilon ≤ 0 then .error "Epsilon must be positive for differential privacy."
  else
    let scale := sensitivity / epsilon
    let numericNames := (df.cols.filter (fun c => c.dtype == .numeric)).map Col.name
    let newCols := df.cols.map (fun c =>
      if c.dtype == .numeric then
        { c with
            values := (List.range df.nrows).map (fun i =>
              Value.addNoise (c.values.getD i .missing) (noise c.name i)) }
      else c)
    .ok ({ cols := newCols, nrows := df.nrows },
      [("epsilon", .q epsilon), ("sensitivity", .q sensitivity),
       ("noise_scale", .q scale), ("columns", .strs numericNames)])

/-- `TransformationResult` of `PrivacyTransformer.apply`. -/
structure TransformationResult where
  protectedDf : DF
  technique : String
  parameters : Params
  info : List (String × InfoVal)
deriving DecidableEq

/-- `PrivacyTransformer.apply`: technique dispatch on the lower-cased
technique name; unknown technique raises `ValueError`. -/
def applyTransform (technique : String) (qis : List String) (p : Params)
    (noise : String → ℕ → ℚ) (df : DF) : Except String TransformationResult :=
  let t := technique.toLower
  if t = "none" ∨ t = "identity" then
    .ok { protectedDf := df, technique := "identity", parameters := p,
          info := [("message", .s "No transformation applied")] }
  else if t = "k_anonymity" ∨ t = "k-anonymity" then
    match applyKAnonymity qis p df with
    | .error e => .error e
    | .ok (pr, info) =>
      .ok { protectedDf := pr, technique := "k_anonymity", parameters := p,
            info := info }
  else if t = "differential_privacy" ∨ t = "dp" then
    match applyDP p noise df with
    | .error e => .error e
    | .ok (pr, info) =>
      .ok { protectedDf := pr, technique := "differential_privacy",
            parameters := p, info := info }
  else .error ("Unsupported privacy technique: " ++ t)

/-- `Series.dropna()`. -/
def seriesDropna (s : List Value) : List Value :=
  s.filter (fun v => ¬ v.isMissing)

/-- Sum of the numeric readings of a series. -/
def seriesSumQ (s : List Value) : ℚ :=
  (s.filterMap Value.toQ).sum

/-- `Series.mean()`: on an object-dtype series containing a string pandas
raises `TypeError` instead of returning a number. -/
def seriesMean (s : List Value) : Except String ℚ :=
  if s.any Value.isStr then
    .error "TypeError: could not convert string to numeric"
  else .ok (seriesSumQ s / (s.length : ℚ))

/-- `Series.std(ddof=0)`, returned as the population variance (the
reported value is its square root, carried as `MVal.absSqrtDiff`);
raises `TypeError` on strings exactly as `mean` does. -/
def seriesVarPop (s : List Value) : Except String ℚ :=
  if s.any Value.isStr then
    .error "TypeError: could not convert string to numeric"
  else
    let m := seriesSumQ s / (s.length : ℚ)
    .ok (((s.filterMap Value.toQ).map (fun x => (x - m) ^ 2)).sum / (s.length : ℚ))

/-- `UtilityEvaluator._rowcount_delta`. -/
def rowcountDeltaMetric (o p : DF) : Metric :=
  let delta : ℤ := (p.nrows : ℤ) - (o.nrows : ℤ)
  let rate : ℚ := if o.nrows = 0 then 0 else (delta : ℚ) / (o.nrows : ℚ)
  { name := "rowcount_delta"
    value := .q rate
    label := "Relative change in row count"
    details := [("original_rows", .q (o.nrows : ℚ)),
                ("protected_rows", .q (p.nrows : ℚ)),
                ("delta", .q (delta : ℚ))] }

/-- Per-column loop of `UtilityEvaluator._numeric_aggregate_deltas` over the
numeric columns of the original frame, looked up by name in the protected
frame (`KeyError` if absent there). -/
def numericDeltasAux (pdf : DF) : List Col → Except String (List Metric)
  | [] => .ok []
  | c :: rest =>
    match pdf.col? c.name with
    | none => .error ("KeyError: " ++ c.name)
    | some pc =>
      let os := seriesDropna c.values
      let ps := seriesDropna pc.values
      if os.isEmpty || ps.isEmpty then numericDeltasAux pdf rest
      else do
        let origMean ← seriesMean os
        let protMean ← seriesMean ps
        let meanDelta := |origMean - protMean|
        let relDelta := if origMean = 0 then meanDelta else meanDelta / |origMean|
        let origVar ← seriesVarPop os
        let protVar ← seriesVarPop ps
        let ms ← numericDeltasAux pdf rest
        .ok ({ name := c.name ++ "_mean_delta"
               value := .q relDelta
               label := "Relative mean difference for " ++ c.name
               details := [("orig_mean", .q origMean), ("prot_mean", .q protMean),
                           ("abs_delta", .q meanDelta)] } ::
             { name := c.name ++ "_std_delta"
               value := .absSqrtDiff origVar protVar
               label := "Standard deviation difference for " ++ c.name
               details := [("orig_std", .absSqrtDiff origVar 0),
                           ("prot_std", .absSqrtDiff protVar 0)] } :: ms)

/-- `UtilityEvaluator._numeric_aggregate_deltas`. -/
def numericAggregateDeltas (o p : DF) : Except String (List Metric) :=
  numericDeltasAux p (o.cols.filter (fun c => c.dtype == .numeric))

/-- Normalised frequency of category `t` in a series
(`value_counts(normalize=True)` plus the `.get(cat, 0.0)` default). -/
def freqOf (s : List Value) (t : Value) : ℚ :=
  if s.length = 0 then 0 else (s.countP (fun v => v.pyEq t) : ℚ) / (s.length : ℚ)

/-- Per-column loop of `UtilityEvaluator._categorical_overlap` over the
object-dtype columns of the original frame. -/
def categoricalOverlapAux (pdf : DF) : List Col → Except String (List Metric)
  | [] => .ok []
  | c :: rest =>
    match pdf.col? c.name with
    | none => .error ("KeyError: " ++ c.name)
    | some pc => do
      let oc := seriesFillna (.str "MISSING") c.values
      let pcv := seriesFillna (.str "MISSING") pc.values
      let cats := dedupBy Value.pyEq (oc ++ pcv)
      let overlap := (cats.map (fun t => min (freqOf oc t) (freqOf pcv t))).sum
      let ms ← categoricalOverlapAux pdf rest
      .ok ({ name := c.name ++ "_overlap"
             value := .q overlap
             label := "Categorical distribution overlap for " ++ c.name
             details := [("unique_categories", .q (cats.length : ℚ))] } :: ms)

/-- `UtilityEvaluator._categorical_overlap`. -/
def categoricalOverlap (o p : DF) : Except String (List Metric) :=
  categoricalOverlapAux p (o.cols.filter (fun c => c.dtype == .object))

/-- `UtilityEvaluator.evaluate`: row-count delta, then the numeric
aggregate deltas, then the categorical overlaps; an exception in either
per-column loop propagates. -/
def utilityEvaluate (o p : DF) : Except String (List Metric) := do
  let nd ← numericAggregateDeltas o p
  let co ← categoricalOverlap o p
  .ok (rowcountDeltaMetric o p :: nd ++ co)

/-- A one-row frame whose only quasi-identifier value is missing. -/
def dfNanRow : DF := ⟨[⟨"a", .object, [.missing]⟩], 1⟩

/-- The spec's end-to-end scenario: six rows, four sharing one
(age, zipcode) pair, two distinct singletons. -/
def dfSix : DF :=
  ⟨[⟨"age", .numeric, [.int 25, .int 25, .int 25, .int 25, .int 30, .int 40]⟩,
    ⟨"zipcode", .object,
      [.str "12345", .str "12345", .str "12345", .str "12345",
       .str "67890", .str "11111"]⟩], 6⟩

/-- One evaluated row ... -/
def dfLink : DF := ⟨[⟨"age", .numeric, [.int 25]⟩], 1⟩

/-- ... and a reference table holding two rows with the same
quasi-identifier value. -/
def dfLinkRef : DF :=
  ⟨[⟨"age", .numeric, [.int 25, .int 25]⟩,
    ⟨"name", .object, [.str "Alice", .str "Bob"]⟩], 2⟩

/-- Two rows with distinct quasi-identifier tuples whose composite string
keys collide: both join to "a||b||c". -/
def dfSep : DF :=
  ⟨[⟨"x", .object, [.str "a", .str "a||b"]⟩,
    ⟨"y", .object, [.str "b||c", .str "c"]⟩], 2⟩

/-- A numeric column that k-anonymity suppression will fill with the
suppression string. -/
def dfNumPair : DF := ⟨[⟨"x", .numeric, [.int 1, .int 2]⟩], 2⟩

/-- What suppression makes of `dfNumPair` under the default k = 5. -/
def dfNumPairSuppressed : DF :=
  ⟨[⟨"x", .object, [.str "SUPPRESSED", .str "SUPPRESSED"]⟩], 2⟩

/-- A zero-row frame with a declared object-dtype column. -/
def dfEmptyCat : DF := ⟨[⟨"c", .object, []⟩], 0⟩

/-- A small mixed frame used to instantiate the general theorems. -/
def dfPlain : DF :=
  ⟨[⟨"age", .numeric, [.int 25, .int 30, .missing]⟩,
    ⟨"cat", .object, [.str "A", .str "B", .missing]⟩], 3⟩

/-- A constant-zero noise source. -/
def noiseZero : String → ℕ → ℚ := fun _ _ => 0

/-- A nonzero noise source, distinct from `noiseZero`. -/
def noiseOne : String → ℕ → ℚ := fun _ _ => 1

/-- The column transformation of `_apply_differential_privacy`. -/
def dpCol (noise : String → ℕ → ℚ) (n : ℕ) (c : Col) : Col :=
  if c.dtype == .numeric then
    { c with values := (List.range n).map (fun i =>
        Value.addNoise (c.values.getD i .missing) (noise c.name i)) }
  else c

/-- The success value of the differential-privacy branch of `apply`. -/
def dpResult (p : Params) (noise : String → ℕ → ℚ) (df : DF) : TransformationResult :=
  { protectedDf := ⟨df.cols.map (dpCol noise df.nrows), df.nrows⟩
    technique := "differential_privacy"
    parameters := p
    info := [("epsilon", .q (p.epsilon.getD 1)),
             ("sensitivity", .q (p.sensitivity.getD 1)),
             ("noise_scale", .q (p.sensitivity.getD 1 / p.epsilon.getD 1)),
             ("columns", .strs ((df.cols.filter
                (fun c => c.dtype == .numeric)).map Col.name))] }

theorem Value.pyEq_refl (v : Value) : v.pyEq v = true := by
  cases v <;> simp [Value.pyEq]

theorem Value.pyEq_symm {a b : Value} (h : a.pyEq b = true) : b.pyEq a = true := by
  cases a <;> cases b <;> simp_all [Value.pyEq]

theorem Value.pyEq_trans {a b c : Value} (h1 : a.pyEq b = true) (h2 : b.pyEq c = true) :
    a.pyEq c = true := by
  cases a <;> cases b <;> cases c <;> simp_all [Value.pyEq]

theorem dedupByF_fuel_irrel {α : Type} (R : α → α → Bool) :
    ∀ (f g : ℕ) (l : List α), l.length ≤ f → l.length ≤ g →
      dedupByF R f l = dedupByF R g l := by
  intro f
  induction f with
  | zero =>
    intro g l hf _
    cases l with
    | nil => cases g <;> rfl
    | cons a l => simp at hf
  | succ f ih =>
    intro g l hf hg
    cases l with
    | nil => cases g <;> rfl
    | cons a l =>
      cases g with
      | zero => simp at hg
      | succ g =>
        simp only [dedupByF]
        congr 1
        exact ih g _
          (le_trans (List.length_filter_le _ _) (Nat.succ_le_succ_iff.mp hf))
          (le_trans (List.length_filter_le _ _) (Nat.succ_le_succ_iff.mp hg))

theorem dedupBy_nil {α : Type} (R : α → α → Bool) : dedupBy R [] = [] := rfl

theorem dedupBy_cons {α : Type} (R : α → α → Bool) (a : α) (l : List α) :
    dedupBy R (a :: l) = a :: dedupBy R (l.filter (fun b => ¬ R b a)) := by
  show dedupByF R (a :: l).length (a :: l) = _
  simp only [dedupByF, List.length_cons]
  congr 1
  exact dedupByF_fuel_irrel R l.length _ _ (List.length_filter_le _ _) (le_refl _)

theorem tupEq_refl (t : List Value) : tupEq t t = true := by
  induction t with
  | nil => rfl
  | cons a l ih => simp [tupEq, Value.pyEq_refl, ih]

theorem tupEq_symm {a b : List Value} (h : tupEq a b = true) : tupEq b a = true := by
  induction a generalizing b with
  | nil => cases b <;> simp_all [tupEq]
  | cons x l ih =>
    cases b with
    | nil => simp_all [tupEq]
    | cons y m =>
      simp only [tupEq, Bool.and_eq_true] at h ⊢
      exact ⟨Value.pyEq_symm h.1, ih h.2⟩

theorem tupEq_trans {a b c : List Value} (h1 : tupEq a b = true) (h2 : tupEq b c = true) :
    tupEq a c = true := by
  induction a generalizing b c with
  | nil => cases b <;> cases c <;> simp_all [tupEq]
  | cons x l ih =>
    cases b with
    | nil => simp_all [tupEq]
    | cons y m =>
      cases c with
      | nil => simp_all [tupEq]
      | cons z n =>
        simp only [tupEq, Bool.and_eq_true] at h1 h2 ⊢
        exact ⟨Value.pyEq_trans h1.1 h2.1, ih h1.2 h2.2⟩

section Partition

variable {α : Type}

theorem mem_of_mem_dedupBy {R : α → α → Bool} {t : α} :
    ∀ {l : List α}, t ∈ dedupBy R l → t ∈ l
  | [], h => by rw [dedupBy_nil] at h; exact absurd h (List.not_mem_nil t)
  | a :: l, h => by
    rw [dedupBy_cons] at h
    rcases List.mem_cons.mp h with h | h
    · exact h ▸ List.mem_cons_self a l
    · exact List.mem_cons_of_mem a (List.mem_of_mem_filter (mem_of_mem_dedupBy h))
termination_by l => l.length
decreasing_by
  exact Nat.lt_succ_of_le (List.length_filter_le _ _)

theorem length_dedupBy_le {R : α → α → Bool} :
    ∀ (l : List α), (dedupBy R l).length ≤ l.length
  | [] => by rw [dedupBy_nil]
  | a :: l => by
    rw [dedupBy_cons]
    simp only [List.length_cons, Nat.succ_le_succ_iff]
    exact le_trans (length_dedupBy_le _) (List.length_filter_le _ _)
termination_by l => l.length
decreasing_by
  exact Nat.lt_succ_of_le (List.length_filter_le _ _)

theorem dedupBy_pairwise {R : α → α → Bool} :
    ∀ (l : List α), (dedupBy R l).Pairwise (fun x y => R y x = false)
  | [] => by rw [dedupBy_nil]; exact List.Pairwise.nil
  | a :: l => by
    rw [dedupBy_cons]
    refine List.Pairwise.cons ?_ (dedupBy_pairwise _)
    intro t ht
    have := List.mem_filter.mp (mem_of_mem_dedupBy ht)
    simpa using this.2
termination_by l => l.length
decreasing_by
  exact Nat.lt_succ_of_le (List.length_filter_le _ _)

theorem dedupBy_cover {R : α → α → Bool}
    (hrefl : ∀ x, R x x = true) (hsymm : ∀ {x y}, R x y = true → R y x = true)
    (htrans : ∀ {x y z}, R x y = true → R y z = true → R x z = true) :
    ∀ (l : List α), ∀ u ∈ l, ∃ t ∈ dedupBy R l, R u t = true
  | a :: l, u, hu => by
    rw [dedupBy_cons]
    rcases List.mem_cons.mp hu with h | h
    · exact ⟨a, List.mem_cons_self _ _, h ▸ hrefl u⟩
    · by_cases hra : R u a = true
      · exact ⟨a, List.mem_cons_self _ _, hra⟩
      · have hmem : u ∈ l.filter (fun b => ¬ R b a) := by
          refine List.mem_filter.mpr ⟨h, ?_⟩
          simpa using fun hc => hra (hc)
        obtain ⟨t, ht, hrt⟩ := dedupBy_cover hrefl @hsymm @htrans _ u hmem
        exact ⟨t, List.mem_cons_of_mem _ ht, hrt⟩
termination_by l => l.length
decreasing_by
  exact Nat.lt_succ_of_le (List.length_filter_le _ _)

theorem countP_eq_one_of_pairwise {R : α → α → Bool}
    (hsymm : ∀ {x y}, R x y = true → R y x = true)
    (htrans : ∀ {x y z}, R x y = true → R y z = true → R x z = true)
    {ds : List α} (hpw : ds.Pairwise (fun x y => R y x = false))
    {u t : α} (ht : t ∈ ds) (hut : R u t = true) :
    ds.countP (fun x => R u x) = 1 := by
  induction ds with
  | nil => cases ht
  | cons a ds ih =>
    have hpwa := List.pairwise_cons.mp hpw
    rcases List.mem_cons.mp ht with h | h
    · subst h
      rw [List.countP_cons, if_pos hut]
      have hz : ds.countP (fun x => R u x) = 0 := by
        rw [List.countP_eq_zero]
        intro x hx
        intro hux
        have hta : R t x = true := htrans (hsymm hut) hux
        have := hpwa.1 x hx
        rw [hsymm hta] at this
        exact Bool.true_eq_false.mp this
      omega
    · have hua : R u a = false := by
        by_contra hc
        have hua : R u a = true := by
          cases h' : R u a with
          | true => rfl
          | false => exact absurd h' hc
        have hat : R a t = true := htrans (hsymm hua) hut
        have := hpwa.1 t h
        rw [hsymm hat] at this
        exact Bool.true_eq_false.mp this
      rw [List.countP_cons, if_neg (by simp [hua]), ih hpwa.2 h]

theorem exactly_one_rep {R : α → α → Bool}
    (hrefl : ∀ x, R x x = true) (hsymm : ∀ {x y}, R x y = true → R y x = true)
    (htrans : ∀ {x y z}, R x y = true → R y z = true → R x z = true)
    (l : List α) (u : α) (hu : u ∈ l) :
    (dedupBy R l).countP (fun t => R u t) = 1 := by
  obtain ⟨t, ht, hut⟩ := dedupBy_cover hrefl @hsymm @htrans l u hu
  exact countP_eq_one_of_pairwise @hsymm @htrans (dedupBy_pairwise l) ht hut

theorem sum_map_add_nat (f g : α → ℕ) (l : List α) :
    (l.map (fun t => f t + g t)).sum = (l.map f).sum + (l.map g).sum := by
  induction l with
  | nil => rfl
  | cons a l ih => simp [ih]; omega

theorem sum_indicator_eq_countP (p : α → Bool) (l : List α) :
    (l.map (fun t => if p t then (1 : ℕ) else 0)).sum = l.countP p := by
  induction l with
  | nil => rfl
  | cons a l ih =>
    rw [List.map_cons, List.sum_cons, List.countP_cons, ih]
    by_cases h : p a = true <;> simp [h, Nat.add_comm]

theorem sum_counts_of_unique_rep {R : α → α → Bool} {ds : List α} :
    ∀ (l : List α), (∀ u ∈ l, ds.countP (fun t => R u t) = 1) →
    (ds.map (fun t => l.countP (fun u => R u t))).sum = l.length := by
  intro l
  induction l with
  | nil => intro _; simp [List.countP_nil]
  | cons u l ih =>
    intro h
    have hfun : ∀ t, List.countP (fun v => R v t) (u :: l) =
        List.countP (fun v => R v t) l + (if R u t then (1 : ℕ) else 0) :=
      fun t => List.countP_cons _ _ _
    simp only [hfun]
    rw [sum_map_add_nat (fun t => List.countP (fun v => R v t) l)
      (fun t => if R u t then (1 : ℕ) else 0) ds]
    rw [ih (fun v hv => h v (List.mem_cons_of_mem _ hv)),
      sum_indicator_eq_countP, h u (List.mem_cons_self _ _)]
    simp

theorem countP_class_congr {R : α → α → Bool}
    (hsymm : ∀ {x y}, R x y = true → R y x = true)
    (htrans : ∀ {x y z}, R x y = true → R y z = true → R x z = true)
    {u t : α} (hut : R u t = true) (l : List α) :
    l.countP (fun x => R x u) = l.countP (fun x => R x t) := by
  induction l with
  | nil => rfl
  | cons a l ih =>
    rw [List.countP_cons, List.countP_cons, ih]
    congr 1
    by_cases h : R a u = true
    · rw [if_pos h, if_pos (htrans h hut)]
    · have hau : R a u = false := by
        cases h' : R a u with
        | true => exact absurd h' h
        | false => rfl
      have hat : R a t = false := by
        by_contra hc
        have hat : R a t = true := by
          cases h' : R a t with
          | true => rfl
          | false => exact absurd h' hc
        exact h (htrans hat (hsymm hut))
      rw [hau, hat]

theorem sum_class_sizes {R : α → α → Bool}
    (hrefl : ∀ x, R x x = true) (hsymm : ∀ {x y}, R x y = true → R y x = true)
    (htrans : ∀ {x y z}, R x y = true → R y z = true → R x z = true)
    (l : List α) :
    ((dedupBy R l).map (fun t => l.countP (fun u => R u t))).sum = l.length :=
  sum_counts_of_unique_rep l (fun u hu => exactly_one_rep hrefl @hsymm @htrans l u hu)

theorem countP_filter_subset {R : α → α → Bool} {ds : List α} (p : α → Bool)
    (l : List α) (h : ∀ u ∈ l, p u = true → ds.countP (fun t => R u t) = 1) :
    (ds.map (fun t => (l.filter p).countP (fun u => R u t))).sum = l.countP p := by
  have := @sum_counts_of_unique_rep _ R ds (l.filter p) ?_
  · rw [this]
    exact (List.countP_eq_length_filter _ _).symm
  · intro u hu
    have := List.mem_filter.mp hu
    exact h u this.1 this.2

theorem singleton_classes_eq_singleton_rows {R : α → α → Bool}
    (hrefl : ∀ x, R x x = true) (hsymm : ∀ {x y}, R x y = true → R y x = true)
    (htrans : ∀ {x y z}, R x y = true → R y z = true → R x z = true)
    (l : List α) :
    (dedupBy R l).countP (fun t => l.countP (fun u => R u t) == 1) =
      l.countP (fun u => l.countP (fun x => R x u) == 1) := by
  have hrep : ∀ u ∈ l, (dedupBy R l).countP (fun t => R u t) = 1 :=
    fun u hu => exactly_one_rep hrefl @hsymm @htrans l u hu
  have hsum := @countP_filter_subset _ R (dedupBy R l)
    (fun u => l.countP (fun x => R x u) == 1) l (fun u hu _ => hrep u hu)
  rw [← hsum]
  rw [← sum_indicator_eq_countP (fun t => l.countP (fun u => R u t) == 1) (dedupBy R l)]
  apply congrArg List.sum
  apply List.map_congr_left
  intro t ht
  have hclass : ∀ u, R u t = true →
      l.countP (fun x => R x u) = l.countP (fun x => R x t) :=
    fun u hut => countP_class_congr @hsymm @htrans hut l
  by_cases hone : l.countP (fun u => R u t) = 1
  · rw [if_pos (by simpa using hone)]
    have : (l.filter (fun u => l.countP (fun x => R x u) == 1)).countP
        (fun u => R u t) = l.countP (fun u => R u t) := by
      rw [List.countP_filter]
      apply List.countP_congr
      intro u hu
      by_cases hut : R u t = true
      · simp [hut, hclass u hut, hone]
      · simp [Bool.eq_false_iff.mpr hut, hut]
    rw [this, hone]
  · rw [if_neg (by simpa using hone)]
    rw [List.countP_filter]
    symm
    rw [List.countP_eq_zero]
    intro u hu
    simp only [Bool.and_eq_true, beq_iff_eq]
    rintro ⟨h1, h2⟩
    exact hone (by rw [← hclass u h1]; exact h2)

end Partition

/-- Claim C1, counterexample: on a single row whose quasi-identifier value
is missing, `_uniques_rate` reports 0.0 because `groupby` silently drops
the row from the partition, while the claim's literal-missing partition
makes the row a singleton class and yields rate 1. -/
theorem uniques_rate_drops_missing_key_rows :
    (uniquesRateMetric ["a"] dfNanRow).value = .q 0 ∧
    specUniquesRate ["a"] dfNanRow = 1 ∧
    riskEvaluate ["a"] dfNanRow none =
      .ok [uniquesRateMetric ["a"] dfNanRow, kMapMetric ["a"] dfNanRow] ∧
    (0 : ℚ) ≠ 1 := by
  refine ⟨?_, ?_, ?_, ?_⟩
  · with_unfolding_all rfl
  · with_unfolding_all rfl
  · with_unfolding_all rfl
  · norm_num

/-- Claim C2: the left merge of `_linkage_success_rate` emits one output
row per matching reference row, so a single evaluated row with two
reference matches yields matched = 2, total = 1 and a "success rate" of
2.0 — outside [0, 1], contradicting the per-row-once counting the spec
demands. -/
theorem linkage_rate_counts_reference_multiplicity :
    riskEvaluate ["age"] dfLink (some dfLinkRef) =
      .ok [uniquesRateMetric ["age"] dfLink, kMapMetric ["age"] dfLink,
           linkageMetric ["age"] dfLink dfLinkRef] ∧
    (linkageMetric ["age"] dfLink dfLinkRef).value = .q 2 ∧
    ¬ ((2 : ℚ) ≤ 1) := by
  refine ⟨?_, ?_, ?_⟩
  · with_unfolding_all rfl
  · with_unfolding_all rfl
  · norm_num

/-- Claim C4, counterexample: a non-empty frame in which every row has a
missing quasi-identifier value leaves `groupby` with no classes at all,
and `_k_map` then reports min_k = 0, not ≥ 1. -/
theorem k_map_min_k_zero_on_all_missing_rows :
    (kMapMetric ["a"] dfNanRow).details = [("min_k", .q 0)] ∧
    dfNanRow.nrows = 1 ∧ (0 : ℚ) < 1 := by
  refine ⟨?_, ?_, ?_⟩
  · with_unfolding_all rfl
  · rfl
  · norm_num

/-- Claim C7: `_generalise_numeric` on a column with more than bin_count
distinct values bins every present value, but a missing cell comes out as
the string "nan", not the documented "MISSING" marker — the source's
`.fillna("MISSING")` runs after `.astype(str)` has already turned NaN
into "nan", so it never fires. -/
theorem generalise_numeric_missing_marker_is_nan :
    generaliseNumeric 5 [.int 1, .int 2, .int 3, .int 4, .int 5, .int 6, .missing] =
      [.str "(0.995, 2.0]", .str "(0.995, 2.0]", .str "(2.0, 3.0]",
       .str "(3.0, 4.0]", .str "(4.0, 5.0]", .str "(5.0, 6.0]", .str "nan"] ∧
    Value.str "nan" ≠ Value.str "MISSING" := by
  refine ⟨?_, ?_⟩
  · with_unfolding_all rfl
  · decide

/-- Claim C9, counterexample: on a zero-row frame with an object column,
both `value_counts` dictionaries are empty, the category union is empty,
and the overlap of the frame with itself is 0.0, not the 1.0 the claim
states for identical datasets. -/
theorem categorical_overlap_zero_on_empty_identical :
    utilityEvaluate dfEmptyCat dfEmptyCat =
      .ok [rowcountDeltaMetric dfEmptyCat dfEmptyCat,
           { name := "c_overlap", value := .q 0,
             label := "Categorical distribution overlap for c",
             details := [("unique_categories", .q 0)] }] ∧
    (0 : ℚ) ≠ 1 := by
  refine ⟨?_, ?_⟩
  · with_unfolding_all rfl
  · norm_num

/-- Claim C8, counterexample: k-anonymity suppression (a transformation of
this very pipeline) turns the numeric column into strings, and
`UtilityEvaluator.evaluate` then raises `TypeError` inside `mean` instead
of degrading to a fallback. -/
theorem utility_evaluate_raises_on_suppressed_numeric :
    applyKAnonymity ["x"] { generalise_numeric := some false } dfNumPair =
      .ok (dfNumPairSuppressed,
           [("k", .q 5), ("suppressed_rows", .q 2), ("total_rows", .q 2)]) ∧
    utilityEvaluate dfNumPair dfNumPairSuppressed =
      .error "TypeError: could not convert string to numeric" := by
  refine ⟨?_, ?_⟩
  · with_unfolding_all rfl
  · with_unfolding_all rfl

/-- With a non-empty quasi-identifier set whose columns all exist,
`RiskAnalyzer.evaluate` without a reference frame returns the uniqueness
and k-map metrics. -/
theorem riskEvaluate_none_ok (df : DF) (qis : List String)
    (hq : qis ≠ []) (hcols : ∀ q ∈ qis, (df.col? q).isSome = true) :
    riskEvaluate qis df none = .ok [uniquesRateMetric qis df, kMapMetric qis df] := by
  have hne : qis.isEmpty = false := by
    cases qis with
    | nil => exact absurd rfl hq
    | cons a l => rfl
  have hall : qis.all (fun q => (df.col? q).isSome) = true :=
    List.all_eq_true.mpr hcols
  simp [riskEvaluate, hne, hall]

/-- If `n` is below every element of a non-empty list, it is below the
running minimum the k-map metric takes. -/
theorem le_foldl_min (n : ℕ) : ∀ (l : List ℕ) (a : ℕ),
    n ≤ a → (∀ x ∈ l, n ≤ x) → n ≤ l.foldl Nat.min a := by
  intro l
  induction l with
  | nil => intro a ha _; exact ha
  | cons b t ih =>
    intro a ha hall
    have hb : n ≤ b := hall b (List.mem_cons_self _ _)
    exact ih (Nat.min a b) (Nat.le_min.mpr ⟨ha, hb⟩)
      (fun x hx => hall x (List.mem_cons_of_mem _ hx))

/-- Claim C3, counterexample: the composite key joins string forms with
the literal separator `||`, so the distinct tuples ("a", "b||c") and
("a||b", "c") collide on the key "a||b||c"; each row's tuple class has
size 1 < k = 2, yet nothing is suppressed and `suppressed_rows` is 0. -/
theorem k_anonymity_separator_collision :
    applyKAnonymity ["x", "y"] { k := some 2 } dfSep =
      .ok (dfSep, [("k", .q 2), ("suppressed_rows", .q 0), ("total_rows", .q 2)]) ∧
    tupleClassSize dfSep ["x", "y"] 0 = 1 ∧
    (1 : ℤ) < 2 ∧
    dfSep.cell "x" 0 = .str "a" ∧
    Value.str "a" ≠ .str "SUPPRESSED" := by
  refine ⟨?_, ?_, ?_, ?_, ?_⟩
  · with_unfolding_all rfl
  · with_unfolding_all rfl
  · norm_num
  · with_unfolding_all rfl
  · decide

/-- Claim C1, amended: the uniqueness-rate metric equals the number of
rows that carry no missing quasi-identifier value and whose key occurs
exactly once among such rows, divided by the total row count (0.0 for an
empty frame); rows with a missing quasi-identifier value stay in the
denominator but can never be counted unique. -/
theorem uniques_rate_eq_singleton_rows_over_total (df : DF) (qis : List String)
    (hq : qis ≠ []) (hcols : ∀ q ∈ qis, (df.col? q).isSome = true) :
    riskEvaluate qis df none = .ok [uniquesRateMetric qis df, kMapMetric qis df] ∧
    (uniquesRateMetric qis df).value =
      .q (if df.nrows = 0 then 0
          else (singletonRowCount qis df : ℚ) / (df.nrows : ℚ)) := by
  constructor
  · exact riskEvaluate_none_ok df qis hq hcols
  · have hcount : (groupSizes df qis).countP (fun s => s == 1) =
        singletonRowCount qis df := by
      unfold groupSizes singletonRowCount
      rw [List.countP_map]
      exact singleton_classes_eq_singleton_rows tupEq_refl
        (fun h => tupEq_symm h) (fun h1 h2 => tupEq_trans h1 h2) _
    simp only [uniquesRateMetric, hcount]

/-- Claim C1 witness: the spec's six-row scenario, where two of six rows
are singletons and the reported rate is 2/6. -/
theorem uniques_rate_eq_singleton_rows_over_total_witness :
    riskEvaluate ["age", "zipcode"] dfSix none =
      .ok [uniquesRateMetric ["age", "zipcode"] dfSix,
           kMapMetric ["age", "zipcode"] dfSix] ∧
    (uniquesRateMetric ["age", "zipcode"] dfSix).value =
      .q (if dfSix.nrows = 0 then 0
          else (singletonRowCount ["age", "zipcode"] dfSix : ℚ) / (dfSix.nrows : ℚ)) :=
  uniques_rate_eq_singleton_rows_over_total dfSix ["age", "zipcode"]
    (by decide) (by decide)

/-- Claim C4, amended: the uniqueness rate always lies in [0, 1], and the
k-map min_k detail is at least 1 whenever at least one row has no missing
quasi-identifier value (a non-empty frame whose every row has a missing
quasi-identifier value yields min_k = 0 instead). -/
theorem uniques_rate_bounded_and_min_k_positive (df : DF) (qis : List String)
    (hq : qis ≠ []) (hcols : ∀ q ∈ qis, (df.col? q).isSome = true) :
    riskEvaluate qis df none = .ok [uniquesRateMetric qis df, kMapMetric qis df] ∧
    (∃ x, (uniquesRateMetric qis df).value = .q x ∧ 0 ≤ x ∧ x ≤ 1) ∧
    (validKeys df qis ≠ [] →
      (kMapMetric qis df).details =
        [("min_k", .q (listMin (groupSizes df qis) : ℚ))] ∧
      1 ≤ listMin (groupSizes df qis)) := by
  refine ⟨riskEvaluate_none_ok df qis hq hcols, ?_, ?_⟩
  · refine ⟨_, rfl, ?_, ?_⟩
    · by_cases h : df.nrows = 0
      · simp [h]
      · have : (0 : ℚ) ≤ ((groupSizes df qis).countP (fun s => s == 1) : ℚ) /
            (df.nrows : ℚ) := by positivity
        simp [h, this]
    · by_cases h : df.nrows = 0
      · simp [h]
      · have huc : (groupSizes df qis).countP (fun s => s == 1) ≤ df.nrows := by
          calc (groupSizes df qis).countP (fun s => s == 1)
              ≤ (groupSizes df qis).length := List.countP_le_length _
            _ = (dedupBy tupEq (validKeys df qis)).length := by
                unfold groupSizes; rw [List.length_map]
            _ ≤ (validKeys df qis).length := length_dedupBy_le _
            _ ≤ (List.range df.nrows).length := List.length_filterMap_le _ _
            _ = df.nrows := List.length_range _
        have hpos : (0 : ℚ) < (df.nrows : ℚ) := by
          exact_mod_cast Nat.pos_of_ne_zero h
        have : ((groupSizes df qis).countP (fun s => s == 1) : ℚ) /
            (df.nrows : ℚ) ≤ 1 := by
          rw [div_le_one hpos]
          exact_mod_cast huc
        simp [h, this]
  · intro hvk
    refine ⟨rfl, ?_⟩
    have hall : ∀ s ∈ groupSizes df qis, 1 ≤ s := by
      intro s hs
      unfold groupSizes at hs
      obtain ⟨t, ht, hts⟩ := List.mem_map.mp hs
      have htvk : t ∈ validKeys df qis := mem_of_mem_dedupBy ht
      have : 0 < (validKeys df qis).countP (fun u => tupEq u t) :=
        List.countP_pos_iff.mpr ⟨t, htvk, tupEq_refl t⟩
      omega
    cases hgs : groupSizes df qis with
    | nil =>
      exfalso
      cases hvk' : validKeys df qis with
      | nil => exact hvk hvk'
      | cons a l =>
        unfold groupSizes at hgs
        rw [hvk', dedupBy_cons] at hgs
        simp at hgs
    | cons a l =>
      show 1 ≤ l.foldl Nat.min a
      refine le_foldl_min 1 l a ?_ ?_
      · exact hall a (hgs ▸ List.mem_cons_self _ _)
      · intro x hx
        exact hall x (hgs ▸ List.mem_cons_of_mem _ hx)

/-- Claim C4 witness: the six-row scenario has rate 1/3 ∈ [0, 1] and a
non-empty partition, hence min_k ≥ 1. -/
theorem uniques_rate_bounded_and_min_k_positive_witness :
    riskEvaluate ["age", "zipcode"] dfSix none =
      .ok [uniquesRateMetric ["age", "zipcode"] dfSix,
           kMapMetric ["age", "zipcode"] dfSix] ∧
    (∃ x, (uniquesRateMetric ["age", "zipcode"] dfSix).value = .q x ∧
      0 ≤ x ∧ x ≤ 1) ∧
    (validKeys dfSix ["age", "zipcode"] ≠ [] →
      (kMapMetric ["age", "zipcode"] dfSix).details =
        [("min_k", .q (listMin (groupSizes dfSix ["age", "zipcode"]) : ℚ))] ∧
      1 ≤ listMin (groupSizes dfSix ["age", "zipcode"])) :=
  uniques_rate_bounded_and_min_k_positive dfSix ["age", "zipcode"]
    (by decide) (by decide)

/-- Claim C10: under the identity and k-anonymity techniques,
`PrivacyTransformer.apply` never consults the random noise source, so its
output — protected frame and info mapping alike — is the same function of
the inputs for any two noise sources; only the differential-privacy path
draws randomness. -/
theorem apply_deterministic_for_identity_and_k_anonymity
    (technique : String) (qis : List String) (p : Params) (df : DF)
    (n1 n2 : String → ℕ → ℚ)
    (h : technique.toLower = "identity" ∨ technique.toLower = "none" ∨
         technique.toLower = "k_anonymity" ∨ technique.toLower = "k-anonymity") :
    applyTransform technique qis p n1 df = applyTransform technique qis p n2 df := by
  rcases h with h | h | h | h <;> simp [applyTransform, h]

/-- Claim C10 witness: identity applied under two different noise sources
gives the same result. -/
theorem apply_deterministic_for_identity_and_k_anonymity_witness :
    applyTransform "identity" [] {} noiseZero dfPlain =
      applyTransform "identity" [] {} noiseOne dfPlain :=
  apply_deterministic_for_identity_and_k_anonymity "identity" [] {} dfPlain
    noiseZero noiseOne (Or.inl (by with_unfolding_all rfl))

/-- Claim C6: the differential-privacy path fails with the configuration
error exactly when epsilon (defaulting to 1.0) is non-positive; on
success the info mapping reports noise_scale = sensitivity / epsilon
(sensitivity defaulting to 1.0) together with both parameters. -/
theorem dp_config_error_iff_nonpositive_epsilon
    (qis : List String) (p : Params) (noise : String → ℕ → ℚ) (df : DF) :
    (p.epsilon.getD 1 ≤ 0 →
      applyTransform "differential_privacy" qis p noise df =
        .error "Epsilon must be positive for differential privacy.") ∧
    (0 < p.epsilon.getD 1 →
      ∃ r, applyTransform "differential_privacy" qis p noise df = .ok r ∧
        r.info.lookup "noise_scale" =
          some (.q (p.sensitivity.getD 1 / p.epsilon.getD 1)) ∧
        r.info.lookup "epsilon" = some (.q (p.epsilon.getD 1)) ∧
        r.info.lookup "sensitivity" = some (.q (p.sensitivity.getD 1))) := by
  have htl : "differential_privacy".toLower = "differential_privacy" := by
    with_unfolding_all rfl
  constructor
  · intro hle
    simp [applyTransform, applyDP, htl, hle]
  · intro hpos
    have hne : ¬ p.epsilon.getD 1 ≤ 0 := not_le.mpr hpos
    have hres : applyTransform "differential_privacy" qis p noise df =
        .ok { protectedDf := ⟨df.cols.map (fun c =>
                if c.dtype == .numeric then
                  { c with values := (List.range df.nrows).map (fun i =>
                      Value.addNoise (c.values.getD i .missing) (noise c.name i)) }
                else c), df.nrows⟩
              technique := "differential_privacy"
              parameters := p
              info := [("epsilon", .q (p.epsilon.getD 1)),
                       ("sensitivity", .q (p.sensitivity.getD 1)),
                       ("noise_scale", .q (p.sensitivity.getD 1 / p.epsilon.getD 1)),
                       ("columns", .strs ((df.cols.filter
                          (fun c => c.dtype == .numeric)).map Col.name))] } := by
      simp [applyTransform, applyDP, htl, hne]
    exact ⟨_, hres, by with_unfolding_all rfl, by with_unfolding_all rfl,
      by with_unfolding_all rfl⟩

/-- Claim C6 witness: epsilon = -1 is rejected; epsilon = 2 with
sensitivity = 3 succeeds with noise_scale 3/2. -/
theorem dp_config_error_iff_nonpositive_epsilon_witness :
    applyTransform "differential_privacy" [] { epsilon := some (-1) } noiseZero dfPlain =
      .error "Epsilon must be positive for differential privacy." ∧
    (∃ r, applyTransform "differential_privacy" []
        { epsilon := some 2, sensitivity := some 3 } noiseZero dfPlain = .ok r ∧
      r.info.lookup "noise_scale" = some (.q ((3 : ℚ) / 2)) ∧
      r.info.lookup "epsilon" = some (.q 2) ∧
      r.info.lookup "sensitivity" = some (.q 3)) :=
  ⟨(dp_config_error_iff_nonpositive_epsilon [] { epsilon := some (-1) }
      noiseZero dfPlain).1 (by norm_num),
   (dp_config_error_iff_nonpositive_epsilon []
      { epsilon := some 2, sensitivity := some 3 } noiseZero dfPlain).2 (by norm_num)⟩

theorem getD_range_map {α : Type} (g : ℕ → α) (n i : ℕ) (d : α) (h : i < n) :
    ((List.range n).map g).getD i d = g i := by
  simp [List.getD_eq_getElem?_getD, List.getElem?_map, List.getElem?_range, h]

/-- Column lookup in a frame whose columns are a name-preserving image of
the original columns finds the image of the original column. -/
theorem col?_map_of_name_preserving (f : Col → Col)
    (hf : ∀ x, (f x).name = x.name) (n : ℕ) :
    ∀ (l : List Col), (l.map Col.name).Nodup → ∀ c ∈ l,
      DF.col? ⟨l.map f, n⟩ c.name = some (f c) := by
  intro l
  induction l with
  | nil => intro _ c hc; cases hc
  | cons a l ih =>
    intro hnd c hc
    rw [List.map_cons] at hnd
    have hnd' := List.nodup_cons.mp hnd
    by_cases hname : a.name = c.name
    · have hca : c = a := by
        rcases List.mem_cons.mp hc with h | h
        · exact h
        · exfalso
          have hmem : c.name ∈ l.map Col.name := List.mem_map.mpr ⟨c, h, rfl⟩
          rw [← hname] at hmem
          exact hnd'.1 hmem
      rw [hca]
      show ((a :: l).map f).find? (fun x => x.name = a.name) = some (f a)
      rw [List.map_cons]
      exact List.find?_cons_of_pos _ (by simp [hf])
    · have hc' : c ∈ l := by
        rcases List.mem_cons.mp hc with h | h
        · exact absurd (by rw [h]) hname
        · exact h
      show ((a :: l).map f).find? (fun x => x.name = c.name) = some (f c)
      rw [List.map_cons]
      rw [List.find?_cons_of_neg _ (by simp [hf, hname])]
      exact ih hnd'.2 c hc'

/-- With a positive epsilon the differential-privacy branch succeeds with
`dpResult`. -/
theorem applyTransform_dp_ok (qis : List String) (p : Params)
    (noise : String → ℕ → ℚ) (df : DF) (hne : ¬ p.epsilon.getD 1 ≤ 0) :
    applyTransform "differential_privacy" qis p noise df = .ok (dpResult p noise df) := by
  have htl : "differential_privacy".toLower = "differential_privacy" := by
    with_unfolding_all rfl
  simp [applyTransform, applyDP, htl, hne, dpResult, dpCol]

/-- Claim C5: with epsilon > 0 the differential-privacy transform adds one
noise term per row to every numeric-dtype column of the frame (whether or
not it is a quasi-identifier), leaves every non-numeric column exactly
unchanged, and preserves the column-name list and row count. -/
theorem dp_perturbs_numeric_preserves_frame (df : DF) (qis : List String)
    (p : Params) (noise : String → ℕ → ℚ)
    (hwf : df.wellFormed) (hpos : 0 < p.epsilon.getD 1) :
    ∃ r, applyTransform "differential_privacy" qis p noise df = .ok r ∧
      r.protectedDf.nrows = df.nrows ∧
      r.protectedDf.cols.map Col.name = df.cols.map Col.name ∧
      (∀ c ∈ df.cols, c.dtype ≠ .numeric → r.protectedDf.col? c.name = some c) ∧
      (∀ c ∈ df.cols, c.dtype = .numeric → ∃ c2,
        r.protectedDf.col? c.name = some c2 ∧ c2.dtype = .numeric ∧
        c2.values.length = df.nrows ∧
        ∀ i < df.nrows,
          c2.values.getD i .missing =
            (c.values.getD i .missing).addNoise (noise c.name i)) := by
  have hne : ¬ p.epsilon.getD 1 ≤ 0 := not_le.mpr hpos
  have hf : ∀ x, (dpCol noise df.nrows x).name = x.name := by
    intro x
    unfold dpCol
    by_cases h : (x.dtype == .numeric) = true <;> simp [h]
  have hnd : (df.cols.map Col.name).Nodup := hwf.2.1
  refine ⟨dpResult p noise df, applyTransform_dp_ok qis p noise df hne,
    rfl, ?_, ?_, ?_⟩
  · show (df.cols.map (dpCol noise df.nrows)).map Col.name = df.cols.map Col.name
    rw [List.map_map]
    exact List.map_congr_left (fun c _ => hf c)
  · intro c hc hdt
    have hcol := col?_map_of_name_preserving (dpCol noise df.nrows) hf df.nrows
      df.cols hnd c hc
    rw [show dpCol noise df.nrows c = c from by
      unfold dpCol
      rw [if_neg (by simpa using hdt)]] at hcol
    exact hcol
  · intro c hc hdt
    have hcol := col?_map_of_name_preserving (dpCol noise df.nrows) hf df.nrows
      df.cols hnd c hc
    refine ⟨dpCol noise df.nrows c, hcol, ?_, ?_, ?_⟩
    · unfold dpCol
      rw [if_pos (by simp [hdt])]
      exact hdt
    · unfold dpCol
      rw [if_pos (by simp [hdt])]
      simp
    · intro i hi
      unfold dpCol
      rw [if_pos (by simp [hdt])]
      exact getD_range_map _ df.nrows i _ hi

/-- Claim C5 witness: the mixed frame `dfPlain` under epsilon = 2 and a
constant noise source. -/
theorem dp_perturbs_numeric_preserves_frame_witness :
    ∃ r, applyTransform "differential_privacy" [] { epsilon := some 2 }
        noiseOne dfPlain = .ok r ∧
      r.protectedDf.nrows = dfPlain.nrows ∧
      r.protectedDf.cols.map Col.name = dfPlain.cols.map Col.name ∧
      (∀ c ∈ dfPlain.cols, c.dtype ≠ .numeric →
        r.protectedDf.col? c.name = some c) ∧
      (∀ c ∈ dfPlain.cols, c.dtype = .numeric → ∃ c2,
        r.protectedDf.col? c.name = some c2 ∧ c2.dtype = .numeric ∧
        c2.values.length = dfPlain.nrows ∧
        ∀ i < dfPlain.nrows,
          c2.values.getD i .missing =
            (c.values.getD i .missing).addNoise (noiseOne c.name i)) :=
  dp_perturbs_numeric_preserves_frame dfPlain [] { epsilon := some 2 } noiseOne
    (by decide) (by norm_num)

/-- Claim C3, amended: in a non-generalised quasi-identifier column the
k-anonymity transform overwrites a row with the suppression value exactly
when the row's composite-key frequency (string forms joined with "||") is
strictly below k, and the info reports k, the count of such rows, and the
total row count.  (Key frequency, not quasi-identifier tuple frequency:
the two differ when values contain the separator.) -/
theorem k_anonymity_suppresses_iff_key_class_below_k
    (df : DF) (qis : List String) (p : Params) (c : Col)
    (hwf : df.wellFormed) (hq : qis ≠ [])
    (hcols : ∀ q ∈ qis, (df.col? q).isSome = true)
    (hc : c ∈ df.cols) (hqi : c.name ∈ qis)
    (hbranch : (p.generalise_numeric.getD true && c.dtype == .numeric) = false) :
    ∃ prot, applyKAnonymity qis p df =
      .ok (prot,
        [("k", .q ((p.k.getD 5 : ℤ) : ℚ)),
         ("suppressed_rows",
          .q (((List.range df.nrows).countP
            (fun i => (rowKeyCount df qis i : ℤ) < p.k.getD 5) : ℕ) : ℚ)),
         ("total_rows", .q (df.nrows : ℚ))]) ∧
      ∃ c2, prot.col? c.name = some c2 ∧
        ∀ i < df.nrows, c2.values.getD i .missing =
          if (rowKeyCount df qis i : ℤ) < p.k.getD 5 then
            p.suppression_value.getD (.str "SUPPRESSED")
          else c.values.getD i .missing := by
  have hne : qis.isEmpty = false := by
    cases qis with
    | nil => exact absurd rfl hq
    | cons a l => rfl
  have hall : qis.all (fun q => (df.col? q).isSome) = true :=
    List.all_eq_true.mpr hcols
  have hf : ∀ x, (kaCol qis p df x).name = x.name := by
    intro x
    unfold kaCol
    by_cases h1 : x.name ∈ qis
    · by_cases h2 : (p.generalise_numeric.getD true && x.dtype == .numeric) = true <;>
        simp [h1, h2]
    · simp [h1]
  refine ⟨⟨df.cols.map (kaCol qis p df), df.nrows⟩, ?_, ?_⟩
  · show applyKAnonymity qis p df = _
    unfold applyKAnonymity
    rw [if_neg (by simp [hne])]
    rw [if_neg (by simp [hall])]
    rfl
  · refine ⟨kaCol qis p df c,
      col?_map_of_name_preserving (kaCol qis p df) hf df.nrows df.cols
        hwf.2.1 c hc, ?_⟩
    intro i hi
    unfold kaCol
    rw [if_pos hqi, if_neg (by simp [hbranch])]
    show ((List.range df.nrows).map _).getD i _ = _
    rw [getD_range_map _ df.nrows i _ hi]
    simp [kaSuppressed]

/-- Claim C3 witness: the six-row scenario with k = 3 and numeric
generalisation off; the zipcode column keeps its four grouped values and
suppresses the two singleton rows, and the info reports 2 suppressed of
6. -/
theorem k_anonymity_suppresses_iff_key_class_below_k_witness :
    ∃ prot, applyKAnonymity ["age", "zipcode"]
        { k := some 3, generalise_numeric := some false } dfSix =
      .ok (prot,
        [("k", .q ((({ k := some 3, generalise_numeric := some false } :
              Params).k.getD 5 : ℤ) : ℚ)),
         ("suppressed_rows",
          .q (((List.range dfSix.nrows).countP
            (fun i => (rowKeyCount dfSix ["age", "zipcode"] i : ℤ) <
              ({ k := some 3, generalise_numeric := some false } :
                Params).k.getD 5) : ℕ) : ℚ)),
         ("total_rows", .q (dfSix.nrows : ℚ))]) ∧
      ∃ c2, prot.col? "zipcode" = some c2 ∧
        ∀ i < dfSix.nrows, c2.values.getD i .missing =
          if (rowKeyCount dfSix ["age", "zipcode"] i : ℤ) <
              ({ k := some 3, generalise_numeric := some false } : Params).k.getD 5 then
            ({ k := some 3, generalise_numeric := some false } :
              Params).suppression_value.getD (.str "SUPPRESSED")
          else (Col.mk "zipcode" .object
            [.str "12345", .str "12345", .str "12345", .str "12345",
             .str "67890", .str "11111"]).values.getD i .missing :=
  k_anonymity_suppresses_iff_key_class_below_k dfSix ["age", "zipcode"]
    { k := some 3, generalise_numeric := some false }
    (Col.mk "zipcode" .object
      [.str "12345", .str "12345", .str "12345", .str "12345",
       .str "67890", .str "11111"])
    (by decide) (by decide) (by decide) (by decide) (by decide) (by decide)

theorem except_bind_ok {ε α β : Type} (x : α) (f : α → Except ε β) :
    ((Except.ok x : Except ε α) >>= f) = f x := rfl

/-- The numeric-delta loop succeeds on every column list whose own values
and protected counterparts contain no strings. -/
theorem numericDeltasAux_ok (pdf : DF) : ∀ (cl : List Col),
    (∀ c ∈ cl, (∀ v ∈ c.values, v.isStr = false) ∧
      ∃ pc, pdf.col? c.name = some pc ∧ ∀ v ∈ pc.values, v.isStr = false) →
    ∃ ms, numericDeltasAux pdf cl = .ok ms := by
  intro cl
  induction cl with
  | nil => intro _; exact ⟨[], rfl⟩
  | cons c rest ih =>
    intro h
    obtain ⟨hcstr, pc, hpc, hpstr⟩ := h c (List.mem_cons_self _ _)
    obtain ⟨ms, hms⟩ := ih (fun x hx => h x (List.mem_cons_of_mem _ hx))
    have hos : (seriesDropna c.values).any Value.isStr = false := by
      rw [List.any_eq_false]
      intro v hv
      simp [hcstr v (List.mem_of_mem_filter hv)]
    have hps : (seriesDropna pc.values).any Value.isStr = false := by
      rw [List.any_eq_false]
      intro v hv
      simp [hpstr v (List.mem_of_mem_filter hv)]
    by_cases hskip :
        ((seriesDropna c.values).isEmpty || (seriesDropna pc.values).isEmpty) = true
    · refine ⟨ms, ?_⟩
      simp only [numericDeltasAux]
      rw [hpc]
      dsimp only
      rw [if_pos hskip]
      exact hms
    · simp only [numericDeltasAux]
      rw [hpc]
      dsimp only
      rw [if_neg hskip]
      simp only [seriesMean, seriesVarPop, hos, hps, Bool.false_eq_true,
        if_false, except_bind_ok, hms]
      exact ⟨_, rfl⟩

/-- The categorical-overlap loop succeeds whenever every column is present
in the protected frame. -/
theorem categoricalOverlapAux_ok (pdf : DF) : ∀ (cl : List Col),
    (∀ c ∈ cl, (pdf.col? c.name).isSome = true) →
    ∃ ms, categoricalOverlapAux pdf cl = .ok ms := by
  intro cl
  induction cl with
  | nil => intro _; exact ⟨[], rfl⟩
  | cons c rest ih =>
    intro h
    obtain ⟨pc, hpc⟩ := Option.isSome_iff_exists.mp (h c (List.mem_cons_self _ _))
    obtain ⟨ms, hms⟩ := ih (fun x hx => h x (List.mem_cons_of_mem _ hx))
    simp only [categoricalOverlapAux]
    rw [hpc]
    dsimp only
    rw [hms, except_bind_ok]
    exact ⟨_, rfl⟩

/-- Claim C8, amended: `UtilityEvaluator.evaluate` never raises provided
every numeric column of the original also holds no string values on the
protected side and every categorical column of the original is present in
the protected frame; within that domain a column with zero non-missing
values on either side is skipped, a zero original mean reports the
absolute delta as the relative delta, and an empty original yields
row-count delta 0.0.  (K-anonymity suppression or binning of a numeric
quasi-identifier column leaves strings in it and makes `mean` raise
`TypeError`, so the unconditional claim fails.) -/
theorem utility_evaluate_total_on_numeric_preserving (o p : DF)
    (hwf : o.wellFormed)
    (hnum : ∀ c ∈ o.cols, c.dtype = .numeric →
      ∃ pc, p.col? c.name = some pc ∧ ∀ v ∈ pc.values, v.isStr = false)
    (hcat : ∀ c ∈ o.cols, c.dtype = .object → (p.col? c.name).isSome = true) :
    (∃ ms, utilityEvaluate o p = .ok ms) ∧
    (o.nrows = 0 → (rowcountDeltaMetric o p).value = .q 0) := by
  constructor
  · have hn : ∀ c ∈ o.cols.filter (fun c => c.dtype == .numeric),
        (∀ v ∈ c.values, v.isStr = false) ∧
        ∃ pc, p.col? c.name = some pc ∧ ∀ v ∈ pc.values, v.isStr = false := by
      intro c hcmem
      have hmem := List.mem_filter.mp hcmem
      have hdt : c.dtype = .numeric := by simpa using hmem.2
      exact ⟨hwf.2.2 c hmem.1 hdt, hnum c hmem.1 hdt⟩
    have hcr : ∀ c ∈ o.cols.filter (fun c => c.dtype == .object),
        (p.col? c.name).isSome = true := by
      intro c hcmem
      have hmem := List.mem_filter.mp hcmem
      exact hcat c hmem.1 (by simpa using hmem.2)
    obtain ⟨nd, hnd⟩ := numericDeltasAux_ok p
      (o.cols.filter (fun c => c.dtype == .numeric)) hn
    obtain ⟨co, hco⟩ := categoricalOverlapAux_ok p
      (o.cols.filter (fun c => c.dtype == .object)) hcr
    refine ⟨rowcountDeltaMetric o p :: nd ++ co, ?_⟩
    show (numericAggregateDeltas o p >>= fun nd2 =>
      categoricalOverlap o p >>= fun co2 =>
      Except.ok (rowcountDeltaMetric o p :: nd2 ++ co2)) = _
    rw [show numericAggregateDeltas o p = .ok nd from hnd]
    rw [except_bind_ok]
    rw [show categoricalOverlap o p = .ok co from hco]
    rw [except_bind_ok]
  · intro h0
    simp [rowcountDeltaMetric, h0]

/-- Claim C8 witness: `dfPlain` compared against itself evaluates
successfully. -/
theorem utility_evaluate_total_on_numeric_preserving_witness :
    (∃ ms, utilityEvaluate dfPlain dfPlain = .ok ms) ∧
    (dfPlain.nrows = 0 → (rowcountDeltaMetric dfPlain dfPlain).value = .q 0) :=
  utility_evaluate_total_on_numeric_preserving dfPlain dfPlain (by decide)
    (by
      intro c hc hdt
      simp only [dfPlain, List.mem_cons, List.mem_singleton] at hc
      rcases hc with rfl | rfl | hc
      · exact ⟨_, by with_unfolding_all rfl, by decide⟩
      · exact absurd hdt (by decide)
      · cases hc)
    (by
      intro c hc hdt
      simp only [dfPlain, List.mem_cons, List.mem_singleton] at hc
      rcases hc with rfl | rfl | hc
      · exact absurd hdt (by decide)
      · decide
      · cases hc)

theorem sum_map_div {α : Type} (l : List α) (f : α → ℚ) (c : ℚ) :
    (l.map (fun x => f x / c)).sum = (l.map f).sum / c := by
  induction l with
  | nil => simp
  | cons a l ih => simp [ih, add_div]

theorem sum_map_natCast {α : Type} (l : List α) (g : α → ℕ) :
    (l.map (fun x => ((g x : ℕ) : ℚ))).sum = (((l.map g).sum : ℕ) : ℚ) := by
  induction l with
  | nil => simp
  | cons a l ih => simp [ih]

theorem freqOf_nonneg (s : List Value) (t : Value) : 0 ≤ freqOf s t := by
  unfold freqOf
  by_cases h : s.length = 0
  · simp [h]
  · rw [if_neg h]
    positivity

/-- Summed over the representatives of the category union, the normalised
frequencies of a non-empty series add to exactly one. -/
theorem sum_freq_eq_one (oc other : List Value) (hne : oc ≠ []) :
    ((dedupBy Value.pyEq (oc ++ other)).map (fun t => freqOf oc t)).sum = 1 := by
  have hlen : oc.length ≠ 0 := by
    intro h
    exact hne (List.eq_nil_of_length_eq_zero h)
  have hrw : ((dedupBy Value.pyEq (oc ++ other)).map (fun t => freqOf oc t)) =
      ((dedupBy Value.pyEq (oc ++ other)).map
        (fun t => ((oc.countP (fun v => v.pyEq t) : ℕ) : ℚ) / (oc.length : ℚ))) := by
    apply List.map_congr_left
    intro t _
    unfold freqOf
    rw [if_neg hlen]
  rw [hrw]
  rw [sum_map_div _ (fun t => ((oc.countP (fun v => v.pyEq t) : ℕ) : ℚ)) _]
  rw [sum_map_natCast]
  have hsum : ((dedupBy Value.pyEq (oc ++ other)).map
      (fun t => oc.countP (fun v => v.pyEq t))).sum = oc.length := by
    apply sum_counts_of_unique_rep
    intro u hu
    exact exactly_one_rep Value.pyEq_refl (fun h => Value.pyEq_symm h)
      (fun h1 h2 => Value.pyEq_trans h1 h2) (oc ++ other) u
      (List.mem_append_left _ hu)
  rw [hsum]
  rw [div_self (by exact_mod_cast hlen)]

/-- The overlap coefficient of any two series lies in [0, 1]. -/
theorem overlap_bounds (oc pcv : List Value) :
    0 ≤ ((dedupBy Value.pyEq (oc ++ pcv)).map
        (fun t => min (freqOf oc t) (freqOf pcv t))).sum ∧
    ((dedupBy Value.pyEq (oc ++ pcv)).map
        (fun t => min (freqOf oc t) (freqOf pcv t))).sum ≤ 1 := by
  constructor
  · apply List.sum_nonneg
    intro x hx
    obtain ⟨t, _, rfl⟩ := List.mem_map.mp hx
    exact le_min (freqOf_nonneg oc t) (freqOf_nonneg pcv t)
  · by_cases hne : oc = []
    · have hz : ∀ t, min (freqOf oc t) (freqOf pcv t) = 0 := by
        intro t
        have h0 : freqOf oc t = 0 := by simp [freqOf, hne]
        rw [h0]
        exact min_eq_left (freqOf_nonneg pcv t)
      calc ((dedupBy Value.pyEq (oc ++ pcv)).map
            (fun t => min (freqOf oc t) (freqOf pcv t))).sum
          = ((dedupBy Value.pyEq (oc ++ pcv)).map (fun _ => (0 : ℚ))).sum := by
            apply congrArg List.sum
            exact List.map_congr_left (fun t _ => hz t)
        _ ≤ 1 := by simp
    · calc ((dedupBy Value.pyEq (oc ++ pcv)).map
            (fun t => min (freqOf oc t) (freqOf pcv t))).sum
          ≤ ((dedupBy Value.pyEq (oc ++ pcv)).map (fun t => freqOf oc t)).sum :=
            List.sum_le_sum (fun t _ => min_le_left _ _)
        _ = 1 := sum_freq_eq_one oc pcv hne

theorem except_bind_error {ε α β : Type} (e : ε) (f : α → Except ε β) :
    ((Except.error e : Except ε α) >>= f) = Except.error e := rfl

/-- Every metric the overlap loop emits carries a value of the
sum-of-minimum-frequencies form. -/
theorem categoricalOverlapAux_values (pdf : DF) : ∀ (cl : List Col)
    (ms : List Metric), categoricalOverlapAux pdf cl = .ok ms → ∀ m ∈ ms,
    ∃ oc pcv, m.value = .q ((dedupBy Value.pyEq (oc ++ pcv)).map
      (fun t => min (freqOf oc t) (freqOf pcv t))).sum := by
  intro cl
  induction cl with
  | nil =>
    intro ms h m hm
    simp only [categoricalOverlapAux] at h
    cases h
    cases hm
  | cons c rest ih =>
    intro ms h m hm
    simp only [categoricalOverlapAux] at h
    cases hpc : pdf.col? c.name with
    | none => rw [hpc] at h; cases h
    | some pc =>
      rw [hpc] at h
      dsimp only at h
      cases hrec : categoricalOverlapAux pdf rest with
      | error e =>
        rw [hrec, except_bind_error] at h
        cases h
      | ok ms2 =>
        rw [hrec, except_bind_ok] at h
        injection h with h
        subst h
        rcases List.mem_cons.mp hm with rfl | hm2
        · exact ⟨seriesFillna (.str "MISSING") c.values,
            seriesFillna (.str "MISSING") pc.values, rfl⟩
        · exact ih ms2 hrec m hm2

/-- When every column compares against itself and is non-empty, the
overlap loop succeeds and every emitted value is exactly 1. -/
theorem categoricalOverlapAux_identity (o : DF) : ∀ (cl : List Col),
    (∀ c ∈ cl, o.col? c.name = some c ∧ c.values ≠ []) →
    ∃ ms, categoricalOverlapAux o cl = .ok ms ∧ ∀ m ∈ ms, m.value = .q 1 := by
  intro cl
  induction cl with
  | nil =>
    intro _
    exact ⟨[], rfl, fun m hm => absurd hm (List.not_mem_nil m)⟩
  | cons c rest ih =>
    intro h
    obtain ⟨hpc, hne⟩ := h c (List.mem_cons_self _ _)
    obtain ⟨ms, hms, hall⟩ := ih (fun x hx => h x (List.mem_cons_of_mem _ hx))
    have hocne : seriesFillna (.str "MISSING") c.values ≠ [] := by
      unfold seriesFillna
      intro hcontra
      exact hne (List.map_eq_nil_iff.mp hcontra)
    refine ⟨{ name := c.name ++ "_overlap"
              value := .q ((dedupBy Value.pyEq
                  (seriesFillna (.str "MISSING") c.values ++
                   seriesFillna (.str "MISSING") c.values)).map
                (fun t => min (freqOf (seriesFillna (.str "MISSING") c.values) t)
                  (freqOf (seriesFillna (.str "MISSING") c.values) t))).sum
              label := "Categorical distribution overlap for " ++ c.name
              details := [("unique_categories",
                .q ((dedupBy Value.pyEq
                  (seriesFillna (.str "MISSING") c.values ++
                   seriesFillna (.str "MISSING") c.values)).length : ℚ))] } :: ms,
      ?_, ?_⟩
    · simp only [categoricalOverlapAux]
      rw [hpc]
      dsimp only
      rw [hms, except_bind_ok]
    · intro m hm
      rcases List.mem_cons.mp hm with rfl | hm2
      · show MVal.q _ = MVal.q 1
        congr 1
        rw [show ((dedupBy Value.pyEq
            (seriesFillna (.str "MISSING") c.values ++
             seriesFillna (.str "MISSING") c.values)).map
            (fun t => min (freqOf (seriesFillna (.str "MISSING") c.values) t)
              (freqOf (seriesFillna (.str "MISSING") c.values) t))) =
          ((dedupBy Value.pyEq
            (seriesFillna (.str "MISSING") c.values ++
             seriesFillna (.str "MISSING") c.values)).map
            (fun t => freqOf (seriesFillna (.str "MISSING") c.values) t)) from
          List.map_congr_left (fun t _ => min_self _)]
        exact sum_freq_eq_one _ _ hocne
      · exact hall m hm2

/-- Claim C9, amended: every categorical-distribution-overlap value the
evaluator emits lies in [0, 1], and when the protected frame is the
original frame itself the overlap is exactly 1.0 for every categorical
column — provided the frame has at least one row (a zero-row frame yields
empty frequency dictionaries and overlap 0.0). -/
theorem categorical_overlap_bounded_and_one_on_identical :
    (∀ (o p : DF) (ms : List Metric), categoricalOverlap o p = .ok ms →
      ∀ m ∈ ms, ∃ x, m.value = .q x ∧ 0 ≤ x ∧ x ≤ 1) ∧
    (∀ o : DF, o.wellFormed → o.nrows ≠ 0 →
      ∃ ms, categoricalOverlap o o = .ok ms ∧ ∀ m ∈ ms, m.value = .q 1) := by
  constructor
  · intro o p ms h m hm
    obtain ⟨oc, pcv, hv⟩ := categoricalOverlapAux_values p _ ms h m hm
    exact ⟨_, hv, (overlap_bounds oc pcv).1, (overlap_bounds oc pcv).2⟩
  · intro o hwf h0
    apply categoricalOverlapAux_identity
    intro c hcmem
    have hmem := List.mem_filter.mp hcmem
    constructor
    · have hid := col?_map_of_name_preserving id (fun _ => rfl) o.nrows o.cols
        hwf.2.1 c hmem.1
      show o.cols.find? (fun x => x.name = c.name) = some c
      have : (o.cols.map id).find? (fun x => x.name = c.name) = some (id c) := hid
      simpa [List.map_id] using this
    · have hlen := hwf.1 c hmem.1
      intro hcontra
      rw [hcontra] at hlen
      simp at hlen
      exact h0 hlen.symm

/-- Claim C9 witness: on `dfPlain` against itself the single categorical
column has overlap 1 (hence also within [0, 1]). -/
theorem categorical_overlap_bounded_and_one_on_identical_witness :
    (∃ x, (Metric.mk "cat_overlap" (.q 1)
        "Categorical distribution overlap for cat"
        [("unique_categories", .q 3)]).value = .q x ∧ 0 ≤ x ∧ x ≤ 1) ∧
    (∃ ms, categoricalOverlap dfPlain dfPlain = .ok ms ∧
      ∀ m ∈ ms, m.value = .q 1) :=
  ⟨categorical_overlap_bounded_and_one_on_identical.1 dfPlain dfPlain
      [Metric.mk "cat_overlap" (.q 1) "Categorical distribution overlap for cat"
        [("unique_categories", .q 3)]]
      (by with_unfolding_all rfl) _ (List.mem_singleton.mpr rfl),
   categorical_overlap_bounded_and_one_on_identical.2 dfPlain
      (by decide) (by decide)⟩
